import Mathlib

/-!
# Verification of the prediction / value-bet reconciliation core

Shallow embedding of the reconciliation logic of `src/pages/PredictionsView.tsx`:
the Prediction Store (`savedPredictions`), the Value-Bet Store (`valueBets`),
the handlers `handleSavePrediction`, `handleSaveValueBet`, `handleUpdateValueBet`,
and the adapter `generateAdvancedPrediction`.

JavaScript numbers that the core only copies around are modelled as `Int`;
strings as `String`; the optional `match.id` and the optional `valueBets`
field as `Option`.  The toast notification emitted on the append path of
`handleSavePrediction` is modelled as the `Bool` component of its result.
The external collaborator `runPrediction` and the current time
(`new Date().toISOString()`) are parameters of the adapter.
-/

namespace PredictionsView

/-- A match record: optional explicit identifier, date string, team names and
the four score fields (as built at `PredictionsView.tsx:122-130`). -/
structure Match where
  id : Option String
  date : String
  home_team : String
  away_team : String
  home_score : Int
  away_score : Int
  ht_home_score : Int
  ht_away_score : Int
deriving DecidableEq

/-- A detected pattern; the core only ever inspects `type`
(`bet.pattern.type`), the rest is opaque payload. -/
structure Pattern where
  type : String
  description : String
deriving DecidableEq

/-- A value bet: `matchId`, the pattern it is tied to, and opaque
bookmaker/odds fields (modelled by `odds` and `stake`). -/
structure ValueBet where
  matchId : String
  pattern : Pattern
  odds : Int
  stake : Int
deriving DecidableEq

/-- `'home_win' | 'draw' | 'away_win'`. -/
inductive PredictedResult where
  | home_win
  | draw
  | away_win
deriving DecidableEq

/-- `predictedScore: { home, away }`. -/
structure Score where
  home : Int
  away : Int
deriving DecidableEq

/-- The `headToHead` aggregate built by `generateAdvancedPrediction`. -/
structure HeadToHead where
  homeTeam : String
  awayTeam : String
  totalMatches : Int
  homeWins : Int
  draws : Int
  awayWins : Int
  homeGoals : Int
  awayGoals : Int
  bothTeamsScored : Int
  avgTotalGoals : Int
  htftReversals : Int
deriving DecidableEq

/-- The canonical `MatchPrediction` record.  `match` is a Lean keyword, so the
field is named `match_`.  `htftAnalysis` entries are opaque to the core and
modelled as strings.  `valueBets` is optional (`prediction.valueBets` may be
`undefined`). -/
structure MatchPrediction where
  match_ : Match
  predictedResult : PredictedResult
  confidenceLevel : Int
  predictedScore : Score
  patterns : List Pattern
  valueBets : Option (List ValueBet)
  htftAnalysis : List String
  headToHead : HeadToHead
deriving DecidableEq

/-- The two view-local stores: `savedPredictions` and `valueBets`
(`PredictionsView.tsx:27-28`). -/
structure StoreState where
  savedPredictions : List MatchPrediction
  valueBets : List ValueBet
deriving DecidableEq

/-- Both `useState` hooks start from the empty array. -/
def emptyState : StoreState := { savedPredictions := [], valueBets := [] }

/-- The predicate of the `findIndex` call in `handleSavePrediction`
(`PredictionsView.tsx:42-45`): joint exact equality of both team names. -/
def samePairB (p prediction : MatchPrediction) : Bool :=
  p.match_.home_team == prediction.match_.home_team &&
  p.match_.away_team == prediction.match_.away_team

/-- `handleSavePrediction` (`PredictionsView.tsx:39-58`): `findIndex` on the
team-name pair; if found, replace at that index (`updatedPredictions[existingIndex]
= prediction`); otherwise emit the success toast and append.  The `Bool`
result records whether the toast was emitted. -/
def handleSavePrediction (prediction : MatchPrediction)
    (prev : List MatchPrediction) : List MatchPrediction × Bool :=
  match prev.findIdx? (fun p => samePairB p prediction) with
  | some existingIndex => (prev.set existingIndex prediction, false)
  | none => (prev ++ [prediction], true)

/-- The match-identity test inlined at `PredictionsView.tsx:69-70`:
`prediction.match.id === bet.matchId ||
 `${home_team}-${away_team}-${date}` === bet.matchId`.
An absent `id` (`undefined === string`) compares unequal to any string. -/
def resolvesMatch (prediction : MatchPrediction) (betMatchId : String) : Bool :=
  prediction.match_.id == some betMatchId ||
  prediction.match_.home_team ++ "-" ++ prediction.match_.away_team ++ "-" ++
    prediction.match_.date == betMatchId

/-- `handleSaveValueBet` (`PredictionsView.tsx:61-80`): append the bet to the
Value-Bet Store; then, only if `savedPredictions.length > 0`, map over the
predictions appending the bet to the `valueBets` of every prediction whose
match resolves to `bet.matchId` (`prediction.valueBets || []` creates the
sequence when absent; `[]` is truthy in JS, so only `undefined` is replaced,
which `Option.getD` models). -/
def handleSaveValueBet (bet : ValueBet) (s : StoreState) : StoreState :=
  let valueBets := s.valueBets ++ [bet]
  let savedPredictions :=
    if s.savedPredictions.length > 0 then
      s.savedPredictions.map (fun prediction =>
        if resolvesMatch prediction bet.matchId then
          { prediction with valueBets := some (prediction.valueBets.getD [] ++ [bet]) }
        else prediction)
    else s.savedPredictions
  { savedPredictions := savedPredictions, valueBets := valueBets }

/-- The bet-identity test used throughout `handleUpdateValueBet`
(`PredictionsView.tsx:86-87,96-97,104-105`):
`bet.matchId === updatedBet.matchId && bet.pattern.type === updatedBet.pattern.type`. -/
def betKeyMatches (bet updatedBet : ValueBet) : Bool :=
  bet.matchId == updatedBet.matchId && bet.pattern.type == updatedBet.pattern.type

/-- `handleUpdateValueBet` (`PredictionsView.tsx:83-112`): map over the
Value-Bet Store replacing each key-matching bet by `updatedBet`; then map over
the predictions: a prediction with no `valueBets` field (`!prediction.valueBets`;
an empty array is truthy) is returned unchanged, otherwise if `some` embedded
bet key-matches, its `valueBets` are mapped with the same replacement. -/
def handleUpdateValueBet (updatedBet : ValueBet) (s : StoreState) : StoreState :=
  { valueBets :=
      s.valueBets.map (fun bet =>
        if betKeyMatches bet updatedBet then updatedBet else bet),
    savedPredictions :=
      s.savedPredictions.map (fun prediction =>
        match prediction.valueBets with
        | none => prediction
        | some vbs =>
          if vbs.any (fun bet => betKeyMatches bet updatedBet) then
            { prediction with
              valueBets := some (vbs.map (fun bet =>
                if betKeyMatches bet updatedBet then updatedBet else bet)) }
          else prediction) }

/-- `modelPredictions.poisson` of the external prediction engine's output. -/
structure PoissonPrediction where
  homeGoals : Int
  awayGoals : Int
deriving DecidableEq

/-- `modelPredictions` of the external prediction engine's output. -/
structure ModelPredictions where
  poisson : PoissonPrediction
deriving DecidableEq

/-- The shape of `runPrediction`'s output consumed by
`generateAdvancedPrediction`.  `predictedWinner` is `Option String` so that an
absent value is representable. -/
structure AdvancedPredictionOutput where
  predictedWinner : Option String
  confidence : Int
  modelPredictions : ModelPredictions
  patterns : List Pattern
  homeExpectedGoals : Int
  awayExpectedGoals : Int
deriving DecidableEq

/-- `generateAdvancedPrediction` (`PredictionsView.tsx:115-165`).  The guard
`if (!homeTeam || !awayTeam) return null` rejects exactly the empty strings.
The external `runPrediction` result is the parameter `advancedPrediction` and
the current instant (`new Date().toISOString()`) is the parameter `nowISO`. -/
def generateAdvancedPrediction (homeTeam awayTeam : String) (nowISO : String)
    (advancedPrediction : AdvancedPredictionOutput) : Option MatchPrediction :=
  if homeTeam == "" || awayTeam == "" then none
  else
    let match_ : Match :=
      { id := none
        date := nowISO
        home_team := homeTeam
        away_team := awayTeam
        home_score := 0
        away_score := 0
        ht_home_score := 0
        ht_away_score := 0 }
    let predictedResult : PredictedResult :=
      if advancedPrediction.predictedWinner == some "home" then .home_win
      else if advancedPrediction.predictedWinner == some "away" then .away_win
      else .draw
    some
      { match_ := match_
        predictedResult := predictedResult
        confidenceLevel := advancedPrediction.confidence
        predictedScore :=
          { home := advancedPrediction.modelPredictions.poisson.homeGoals
            away := advancedPrediction.modelPredictions.poisson.awayGoals }
        patterns := advancedPrediction.patterns
        valueBets := none
        htftAnalysis := []
        headToHead :=
          { homeTeam := homeTeam
            awayTeam := awayTeam
            totalMatches := 0
            homeWins := 0
            draws := 0
            awayWins := 0
            homeGoals := 0
            awayGoals := 0
            bothTeamsScored := 0
            avgTotalGoals := advancedPrediction.homeExpectedGoals +
              advancedPrediction.awayExpectedGoals
            htftReversals := 0 } }

/-- Events a view session can fire at the two stores. -/
inductive StoreEvent where
  | saveBet : ValueBet → StoreEvent
  | savePred : MatchPrediction → StoreEvent
deriving DecidableEq

/-- One event step on the store state. -/
def stepEvent (s : StoreState) (e : StoreEvent) : StoreState :=
  match e with
  | .saveBet b => handleSaveValueBet b s
  | .savePred p =>
    { s with savedPredictions := (handleSavePrediction p s.savedPredictions).1 }

/-- Run a sequence of events from the empty stores. -/
def runEvents (es : List StoreEvent) : StoreState := es.foldl stepEvent emptyState

/-! ## Helper definitions used by specification statements -/

/-- The team-name key by which the Prediction Store identifies fixtures. -/
def keyOf (p : MatchPrediction) : String × String :=
  (p.match_.home_team, p.match_.away_team)

/-- The per-prediction effect of the attach step of `handleSaveValueBet`. -/
def attachSingle (bet : ValueBet) (prediction : MatchPrediction) : MatchPrediction :=
  if resolvesMatch prediction bet.matchId then
    { prediction with valueBets := some (prediction.valueBets.getD [] ++ [bet]) }
  else prediction

/-- The per-prediction effect of the reattach step of `handleUpdateValueBet`. -/
def reattachSingle (updatedBet : ValueBet) (prediction : MatchPrediction) :
    MatchPrediction :=
  match prediction.valueBets with
  | none => prediction
  | some vbs =>
    if vbs.any (fun bet => betKeyMatches bet updatedBet) then
      { prediction with
        valueBets := some (vbs.map (fun bet =>
          if betKeyMatches bet updatedBet then updatedBet else bet)) }
    else prediction

/-- Folding the attach step over a list of bets, oldest first. -/
def attachAll (bs : List ValueBet) (p : MatchPrediction) : MatchPrediction :=
  bs.foldl (fun q b => attachSingle b q) p

/-- All fields of a prediction except `valueBets`, for frame statements. -/
def predictionFrame (p : MatchPrediction) :
    Match × PredictedResult × Int × Score × List Pattern × List String × HeadToHead :=
  (p.match_, p.predictedResult, p.confidenceLevel, p.predictedScore, p.patterns,
   p.htftAnalysis, p.headToHead)

/-! ## Basic lemmas about the key predicates -/

theorem samePairB_iff {p q : MatchPrediction} :
    samePairB p q = true ↔ keyOf p = keyOf q := by
  simp [samePairB, keyOf, Prod.ext_iff]

theorem betKeyMatches_iff {a b : ValueBet} :
    betKeyMatches a b = true ↔
      a.matchId = b.matchId ∧ a.pattern.type = b.pattern.type := by
  simp [betKeyMatches]

theorem betKeyMatches_refl (b : ValueBet) : betKeyMatches b b = true := by
  simp [betKeyMatches]

theorem betKeyMatches_symm (a b : ValueBet) :
    betKeyMatches a b = betKeyMatches b a := by
  rw [Bool.eq_iff_iff]
  constructor
  · intro h
    rcases betKeyMatches_iff.mp h with ⟨h1, h2⟩
    exact betKeyMatches_iff.mpr ⟨h1.symm, h2.symm⟩
  · intro h
    rcases betKeyMatches_iff.mp h with ⟨h1, h2⟩
    exact betKeyMatches_iff.mpr ⟨h1.symm, h2.symm⟩

/-! ## Unfolding lemmas for the handlers -/

theorem handleSavePrediction_nil (p : MatchPrediction) :
    handleSavePrediction p [] = ([p], true) := rfl

theorem handleSavePrediction_cons (p q : MatchPrediction) (l : List MatchPrediction) :
    handleSavePrediction p (q :: l) =
      if samePairB q p then (p :: l, false)
      else (q :: (handleSavePrediction p l).1, (handleSavePrediction p l).2) := by
  unfold handleSavePrediction
  by_cases h : samePairB q p
  · simp [List.findIdx?_cons, h]
  · simp only [List.findIdx?_cons, h, if_neg, Bool.false_eq_true, if_false]
    rw [List.findIdx?_start_succ]
    cases hfi : l.findIdx? (fun x => samePairB x p) with
    | none => simp
    | some j => simp [List.set]

theorem mem_handleSavePrediction {q p : MatchPrediction} {l : List MatchPrediction}
    (h : q ∈ (handleSavePrediction p l).1) : q ∈ l ∨ q = p := by
  unfold handleSavePrediction at h
  cases hfi : l.findIdx? (fun x => samePairB x p) with
  | some i =>
    rw [hfi] at h
    exact List.mem_or_eq_of_mem_set h
  | none =>
    rw [hfi] at h
    simp only [List.mem_append, List.mem_singleton] at h
    exact h

theorem handleSaveValueBet_eq (bet : ValueBet) (s : StoreState) :
    handleSaveValueBet bet s =
      { savedPredictions := s.savedPredictions.map (attachSingle bet),
        valueBets := s.valueBets ++ [bet] } := by
  unfold handleSaveValueBet attachSingle
  cases hl : s.savedPredictions with
  | nil => simp [hl]
  | cons a l => simp [hl]

theorem handleUpdateValueBet_eq (b : ValueBet) (s : StoreState) :
    handleUpdateValueBet b s =
      { savedPredictions := s.savedPredictions.map (reattachSingle b),
        valueBets := s.valueBets.map (fun e => if betKeyMatches e b then b else e) } :=
  rfl

/-! ## Frame and attach lemmas -/

theorem attachSingle_match_ (b : ValueBet) (p : MatchPrediction) :
    (attachSingle b p).match_ = p.match_ := by
  unfold attachSingle
  split <;> rfl

theorem resolvesMatch_attachSingle (b : ValueBet) (p : MatchPrediction) (x : String) :
    resolvesMatch (attachSingle b p) x = resolvesMatch p x := by
  unfold resolvesMatch
  rw [attachSingle_match_]

theorem attachSingle_valueBets (b : ValueBet) (p : MatchPrediction) :
    (attachSingle b p).valueBets.getD [] =
      p.valueBets.getD [] ++ (if resolvesMatch p b.matchId then [b] else []) := by
  unfold attachSingle
  split <;> simp_all

theorem attachAll_nil (p : MatchPrediction) : attachAll [] p = p := rfl

theorem attachAll_cons (b : ValueBet) (bs : List ValueBet) (p : MatchPrediction) :
    attachAll (b :: bs) p = attachAll bs (attachSingle b p) := rfl

theorem attachAll_match_ (bs : List ValueBet) (p : MatchPrediction) :
    (attachAll bs p).match_ = p.match_ := by
  induction bs generalizing p with
  | nil => rfl
  | cons b bs ih => rw [attachAll_cons, ih, attachSingle_match_]

theorem resolvesMatch_attachAll (bs : List ValueBet) (p : MatchPrediction) (x : String) :
    resolvesMatch (attachAll bs p) x = resolvesMatch p x := by
  unfold resolvesMatch
  rw [attachAll_match_]

theorem attachAll_valueBets (bs : List ValueBet) (p : MatchPrediction) :
    (attachAll bs p).valueBets.getD [] =
      p.valueBets.getD [] ++ bs.filter (fun b => resolvesMatch p b.matchId) := by
  induction bs generalizing p with
  | nil => simp [attachAll_nil]
  | cons b bs ih =>
    rw [attachAll_cons, ih]
    simp only [resolvesMatch_attachSingle, attachSingle_valueBets, List.filter_cons]
    by_cases h : resolvesMatch p b.matchId
    · simp [h]
    · simp [h]

theorem predictionFrame_attachSingle (b : ValueBet) (p : MatchPrediction) :
    predictionFrame (attachSingle b p) = predictionFrame p := by
  unfold attachSingle predictionFrame
  split <;> rfl

theorem predictionFrame_reattachSingle (b : ValueBet) (p : MatchPrediction) :
    predictionFrame (reattachSingle b p) = predictionFrame p := by
  rcases p with ⟨m, r, c, sc, pat, vb, ht, hh⟩
  cases vb with
  | none => rfl
  | some vbs =>
    unfold reattachSingle predictionFrame
    dsimp only
    split <;> rfl

theorem map_predictionFrame_eq {g : MatchPrediction → MatchPrediction}
    (hg : ∀ p, predictionFrame (g p) = predictionFrame p) (l : List MatchPrediction) :
    (l.map g).map predictionFrame = l.map predictionFrame := by
  induction l with
  | nil => rfl
  | cons p l ih => simp [hg, ih]

/-! ## Folding sequences of events -/

theorem foldl_saveBet (bs : List ValueBet) (s : StoreState) :
    (bs.map StoreEvent.saveBet).foldl stepEvent s =
      { savedPredictions := s.savedPredictions.map (attachAll bs),
        valueBets := s.valueBets ++ bs } := by
  induction bs generalizing s with
  | nil =>
    simp only [List.map_nil, List.foldl_nil, List.append_nil]
    cases s with
    | mk preds vb =>
      simp only [StoreState.mk.injEq, and_true]
      exact (List.map_id'' (fun p => attachAll_nil p) preds).symm
  | cons b bs ih =>
    simp only [List.map_cons, List.foldl_cons]
    have hstep : stepEvent s (.saveBet b) = handleSaveValueBet b s := rfl
    rw [hstep, handleSaveValueBet_eq, ih]
    simp [List.map_map, Function.comp, attachAll_cons]

theorem foldl_savePred_valueBets (ps : List MatchPrediction) (s : StoreState) :
    ((ps.map StoreEvent.savePred).foldl stepEvent s).valueBets = s.valueBets := by
  induction ps generalizing s with
  | nil => rfl
  | cons p ps ih =>
    simp only [List.map_cons, List.foldl_cons]
    rw [ih]
    rfl

theorem foldl_savePred_mem (ps : List MatchPrediction) (s : StoreState)
    {q : MatchPrediction}
    (h : q ∈ ((ps.map StoreEvent.savePred).foldl stepEvent s).savedPredictions) :
    q ∈ s.savedPredictions ∨ q ∈ ps := by
  induction ps generalizing s with
  | nil => exact Or.inl h
  | cons p ps ih =>
    simp only [List.map_cons, List.foldl_cons] at h
    rcases ih _ h with h1 | h1
    · rcases mem_handleSavePrediction h1 with h2 | h2
      · exact Or.inl h2
      · exact Or.inr (by simp [h2])
    · exact Or.inr (List.mem_cons_of_mem _ h1)

/-! ## Concrete sample data for witnesses and counterexamples -/

/-- A sample pattern of type `"over"`. -/
def patT : Pattern := { type := "over", description := "p" }

/-- A sample pattern of a different type. -/
def patU : Pattern := { type := "btts", description := "q" }

/-- A match between teams `"A"` and `"B"` on date `"d"`, no explicit id. -/
def matchAB : Match :=
  { id := none, date := "d", home_team := "A", away_team := "B",
    home_score := 0, away_score := 0, ht_home_score := 0, ht_away_score := 0 }

/-- A zeroed head-to-head aggregate. -/
def h2hZero : HeadToHead :=
  { homeTeam := "A", awayTeam := "B", totalMatches := 0, homeWins := 0,
    draws := 0, awayWins := 0, homeGoals := 0, awayGoals := 0,
    bothTeamsScored := 0, avgTotalGoals := 0, htftReversals := 0 }

/-- A sample prediction for the `A` vs `B` fixture with no embedded bets. -/
def predAB : MatchPrediction :=
  { match_ := matchAB, predictedResult := .draw, confidenceLevel := 0,
    predictedScore := { home := 0, away := 0 }, patterns := [],
    valueBets := none, htftAnalysis := [], headToHead := h2hZero }

/-- The same fixture as `predAB` with a different confidence level. -/
def predAB2 : MatchPrediction := { predAB with confidenceLevel := 5 }

/-- A bet on the `A` vs `B` fixture via the fallback composite key. -/
def betAB1 : ValueBet := { matchId := "A-B-d", pattern := patT, odds := 2, stake := 1 }

/-- Same key as `betAB1`, different odds. -/
def betAB2 : ValueBet := { matchId := "A-B-d", pattern := patT, odds := 3, stake := 1 }

/-- Same key as `betAB1` and `betAB2`, different odds again. -/
def betAB3 : ValueBet := { matchId := "A-B-d", pattern := patT, odds := 4, stake := 1 }

/-- A bet whose key matches nothing above. -/
def betOther : ValueBet := { matchId := "Z", pattern := patU, odds := 1, stake := 1 }

/-- The match of the fallback-key example of the spec. -/
def matchXY : Match :=
  { id := none, date := "2024-01-01T00:00:00.000Z", home_team := "X",
    away_team := "Y", home_score := 0, away_score := 0,
    ht_home_score := 0, ht_away_score := 0 }

/-- A prediction for `matchXY`. -/
def predXY : MatchPrediction :=
  { match_ := matchXY, predictedResult := .draw, confidenceLevel := 0,
    predictedScore := { home := 0, away := 0 }, patterns := [],
    valueBets := none, htftAnalysis := [], headToHead := h2hZero }

/-- A sample model output whose winner signal is `"home"`. -/
def advHome : AdvancedPredictionOutput :=
  { predictedWinner := some "home", confidence := 70,
    modelPredictions := { poisson := { homeGoals := 2, awayGoals := 1 } },
    patterns := [], homeExpectedGoals := 2, awayExpectedGoals := 1 }

/-! ## Claim C7: fallback composite key resolution -/

/-- Claim C7: for a prediction whose match carries no explicit identifier, a
bet resolves to it exactly when `bet.matchId` equals the composite string
`"{home_team}-{away_team}-{date}"` built from the prediction's match, by
case-sensitive exact string equality. -/
theorem fallback_key_resolution (p : MatchPrediction) (betMatchId : String)
    (hid : p.match_.id = none) :
    resolvesMatch p betMatchId = true ↔
      p.match_.home_team ++ "-" ++ p.match_.away_team ++ "-" ++ p.match_.date
        = betMatchId := by
  simp [resolvesMatch, hid]

/-- Witness for C7: the spec's own example, a bet with matchId
`"X-Y-2024-01-01T00:00:00.000Z"` resolves to a prediction for match
`{home_team:"X", away_team:"Y", date:"2024-01-01T00:00:00.000Z"}` with no id. -/
theorem fallback_key_resolution_witness :
    resolvesMatch predXY "X-Y-2024-01-01T00:00:00.000Z" = true :=
  (fallback_key_resolution predXY "X-Y-2024-01-01T00:00:00.000Z" rfl).mpr (by decide)

/-! ## Claim C8: adapter winner mapping -/

/-- Claim C8: for every model output and non-empty team names, the adapter
yields a prediction and maps the winner signal totally: `"home"` to
`home_win`, `"away"` to `away_win`, every other value (including absent) to
`draw`; it never fails on an unrecognized winner value. -/
theorem adapter_winner_mapping (home away nowISO : String)
    (adv : AdvancedPredictionOutput) (hh : home ≠ "") (ha : away ≠ "") :
    ∃ pr, generateAdvancedPrediction home away nowISO adv = some pr ∧
      (adv.predictedWinner = some "home" → pr.predictedResult = .home_win) ∧
      (adv.predictedWinner = some "away" → pr.predictedResult = .away_win) ∧
      (adv.predictedWinner ≠ some "home" → adv.predictedWinner ≠ some "away" →
        pr.predictedResult = .draw) := by
  unfold generateAdvancedPrediction
  rw [if_neg (by simp [hh, ha])]
  refine ⟨_, rfl, ?_, ?_, ?_⟩
  · intro hw
    simp [hw]
  · intro hw
    simp [hw]
  · intro h1 h2
    simp [h1, h2]

/-- Witness for C8 at team names `"A"`, `"B"` and the model output `advHome`. -/
theorem adapter_winner_mapping_witness :
    ∃ pr, generateAdvancedPrediction "A" "B" "d" advHome = some pr ∧
      (advHome.predictedWinner = some "home" → pr.predictedResult = .home_win) ∧
      (advHome.predictedWinner = some "away" → pr.predictedResult = .away_win) ∧
      (advHome.predictedWinner ≠ some "home" → advHome.predictedWinner ≠ some "away" →
        pr.predictedResult = .draw) :=
  adapter_winner_mapping "A" "B" "d" advHome (by decide) (by decide)

/-! ## Claim C9: adapter empty-input rejection -/

/-- Claim C9: the adapter returns the null case when either team name is the
empty string, and a prediction record when both are non-empty; it never
throws. -/
theorem adapter_empty_input (home away nowISO : String)
    (adv : AdvancedPredictionOutput) :
    (home = "" → generateAdvancedPrediction home away nowISO adv = none) ∧
    (away = "" → generateAdvancedPrediction home away nowISO adv = none) ∧
    (home ≠ "" → away ≠ "" →
      (generateAdvancedPrediction home away nowISO adv).isSome = true) := by
  refine ⟨?_, ?_, ?_⟩
  · intro h
    subst h
    simp [generateAdvancedPrediction]
  · intro h
    subst h
    simp [generateAdvancedPrediction]
  · intro h1 h2
    simp [generateAdvancedPrediction, h1, h2]

/-- Witness for C9 at the concrete inputs of the spec's example. -/
theorem adapter_empty_input_witness :
    generateAdvancedPrediction "" "B" "d" advHome = none ∧
    generateAdvancedPrediction "A" "" "d" advHome = none ∧
    (generateAdvancedPrediction "A" "B" "d" advHome).isSome = true :=
  ⟨(adapter_empty_input "" "B" "d" advHome).1 rfl,
   (adapter_empty_input "A" "" "d" advHome).2.1 rfl,
   (adapter_empty_input "A" "B" "d" advHome).2.2 (by decide) (by decide)⟩

/-! ## Claim C10: value-bet operations do not disturb prediction frames -/

/-- Claim C10: `handleSaveValueBet` and `handleUpdateValueBet` leave the
Prediction Store's length and record order unchanged and change at most the
`valueBets` field of each stored prediction: the per-record projection onto
all other fields is the same before and after. -/
theorem valuebet_ops_frame (s : StoreState) (b : ValueBet) :
    (handleSaveValueBet b s).savedPredictions.map predictionFrame =
      s.savedPredictions.map predictionFrame ∧
    (handleUpdateValueBet b s).savedPredictions.map predictionFrame =
      s.savedPredictions.map predictionFrame := by
  constructor
  · rw [handleSaveValueBet_eq]
    exact map_predictionFrame_eq (predictionFrame_attachSingle b) _
  · rw [handleUpdateValueBet_eq]
    exact map_predictionFrame_eq (predictionFrame_reattachSingle b) _

/-! ## Claim C4: the Prediction Store upsert -/

/-- Claim C4: `handleSavePrediction` either replaces the first existing record
with the same `(home_team, away_team)` pair — joint exact string equality —
at its existing position without the notification, or, when no record has the
pair, appends and emits the notification; no validation rejects the incoming
prediction, which always ends up stored. -/
theorem savePrediction_upsert_spec (prev : List MatchPrediction)
    (p : MatchPrediction) :
    p ∈ (handleSavePrediction p prev).1 ∧
    ((∀ q ∈ prev, samePairB q p = false) →
      handleSavePrediction p prev = (prev ++ [p], true)) ∧
    (∀ i q, prev[i]? = some q → samePairB q p = true →
      (∀ j r, j < i → prev[j]? = some r → samePairB r p = false) →
      handleSavePrediction p prev = (prev.set i p, false)) := by
  induction prev with
  | nil =>
    refine ⟨by simp [handleSavePrediction_nil], fun _ => by simp [handleSavePrediction_nil], ?_⟩
    intro i q hq
    simp at hq
  | cons a l ih =>
    refine ⟨?_, ?_, ?_⟩
    · rw [handleSavePrediction_cons]
      by_cases h : samePairB a p = true
      · simp [h]
      · simp only [h, Bool.false_eq_true, if_false]
        exact List.mem_cons_of_mem a ih.1
    · intro h
      have ha : samePairB a p = false := h a (List.mem_cons_self a l)
      rw [handleSavePrediction_cons]
      simp only [ha, Bool.false_eq_true, if_false]
      rw [ih.2.1 (fun q hq => h q (List.mem_cons_of_mem a hq))]
      rfl
    · intro i q hq hqp hprev
      cases i with
      | zero =>
        simp only [List.getElem?_cons_zero, Option.some.injEq] at hq
        subst hq
        rw [handleSavePrediction_cons]
        simp [hqp, List.set]
      | succ i =>
        have ha : samePairB a p = false :=
          hprev 0 a (Nat.zero_lt_succ i) (by simp)
        rw [handleSavePrediction_cons]
        simp only [ha, Bool.false_eq_true, if_false]
        have hrec := ih.2.2 i q (by simpa using hq) hqp
          (fun j r hj hr =>
            hprev (j + 1) r (Nat.succ_lt_succ hj) (by simpa using hr))
        rw [hrec]
        rfl

/-- Witness for C4: saving a second prediction for the `A` vs `B` fixture
replaces the first one in place. -/
theorem savePrediction_upsert_spec_witness :
    handleSavePrediction predAB2 [predAB] = ([predAB2], false) := by
  have h := (savePrediction_upsert_spec [predAB] predAB2).2.2 0 predAB rfl
    (by decide) (fun j r hj _ => absurd hj (Nat.not_lt_zero j))
  simpa using h

/-! ## Claim C2: at most one prediction per team pair -/

theorem savePrediction_pairwise (p : MatchPrediction) (l : List MatchPrediction)
    (h : l.Pairwise (fun x y => keyOf x ≠ keyOf y)) :
    (handleSavePrediction p l).1.Pairwise (fun x y => keyOf x ≠ keyOf y) := by
  induction l with
  | nil =>
    rw [handleSavePrediction_nil]
    exact List.pairwise_singleton _ p
  | cons q l ih =>
    rcases List.pairwise_cons.mp h with ⟨hq, hl⟩
    rw [handleSavePrediction_cons]
    by_cases hqp : samePairB q p = true
    · simp only [hqp, if_true]
      have hk : keyOf q = keyOf p := samePairB_iff.mp hqp
      exact List.pairwise_cons.mpr ⟨fun y hy => hk ▸ hq y hy, hl⟩
    · simp only [hqp, Bool.false_eq_true, if_false]
      refine List.pairwise_cons.mpr ⟨?_, ih hl⟩
      intro y hy
      rcases mem_handleSavePrediction hy with h1 | rfl
      · exact hq y h1
      · intro hk
        exact hqp (samePairB_iff.mpr hk)

theorem foldl_save_pairwise (ps : List MatchPrediction)
    (l0 : List MatchPrediction)
    (h0 : l0.Pairwise (fun x y => keyOf x ≠ keyOf y)) :
    (ps.foldl (fun l p => (handleSavePrediction p l).1) l0).Pairwise
      (fun x y => keyOf x ≠ keyOf y) := by
  induction ps generalizing l0 with
  | nil => exact h0
  | cons p ps ih => exact ih _ (savePrediction_pairwise p l0 h0)

theorem key_pred_iff {e : MatchPrediction} {h a : String} :
    (e.match_.home_team == h && e.match_.away_team == a) = true ↔
      keyOf e = (h, a) := by
  simp [keyOf, Prod.ext_iff]

theorem countP_key_le_one {l : List MatchPrediction}
    (hpw : l.Pairwise (fun x y => keyOf x ≠ keyOf y)) (h a : String) :
    l.countP (fun e => e.match_.home_team == h && e.match_.away_team == a)
      ≤ 1 := by
  induction l with
  | nil => simp
  | cons q l ih =>
    rcases List.pairwise_cons.mp hpw with ⟨hq, hl⟩
    by_cases hqk : (q.match_.home_team == h && q.match_.away_team == a) = true
    · rw [List.countP_cons_of_pos
        (fun e : MatchPrediction =>
          e.match_.home_team == h && e.match_.away_team == a) _ hqk]
      have h0 : l.countP
          (fun e => e.match_.home_team == h && e.match_.away_team == a) = 0 := by
        rw [List.countP_eq_zero]
        intro e he hek
        exact hq e he (key_pred_iff.mp hek ▸ (key_pred_iff.mp hqk).symm ▸ rfl)
      omega
    · rw [List.countP_cons_of_neg
        (fun e : MatchPrediction =>
          e.match_.home_team == h && e.match_.away_team == a) _ hqk]
      exact ih hl

/-- Claim C2: starting from the empty Prediction Store, after any sequence of
saves the store holds at most one record whose match has a given
`(home_team, away_team)` pair — a later save replaces rather than adds. -/
theorem prediction_store_key_unique (ps : List MatchPrediction) (h a : String) :
    ((ps.foldl (fun l p => (handleSavePrediction p l).1) []).countP
      (fun e => e.match_.home_team == h && e.match_.away_team == a)) ≤ 1 :=
  countP_key_le_one (foldl_save_pairwise ps [] List.Pairwise.nil) h a

/-! ## Claim C5: saving a value bet appends and attaches -/

/-- Claim C5: `handleSaveValueBet b` appends `b` to the Value-Bet Store and
appends `b` to the `valueBets` sequence (created if absent) of every
prediction whose match identity resolves to `b.matchId` — all resolving
predictions, not just the first; when the Prediction Store is empty the
attach step is skipped and nothing fails. -/
theorem saveValueBet_spec (s : StoreState) (b : ValueBet) :
    (handleSaveValueBet b s).valueBets = s.valueBets ++ [b] ∧
    (∀ (i : Nat) (p : MatchPrediction), s.savedPredictions[i]? = some p →
      (handleSaveValueBet b s).savedPredictions[i]? =
        some (if resolvesMatch p b.matchId then
          { p with valueBets := some (p.valueBets.getD [] ++ [b]) }
        else p)) ∧
    (s.savedPredictions = [] →
      (handleSaveValueBet b s).savedPredictions = s.savedPredictions) := by
  refine ⟨?_, ?_, ?_⟩
  · rw [handleSaveValueBet_eq]
  · intro i p hp
    rw [handleSaveValueBet_eq]
    simp only [List.getElem?_map, hp, Option.map_some]
    rfl
  · intro h
    rw [handleSaveValueBet_eq, h]
    rfl

/-- Witness for C5: saving `betAB1` against a store holding `predAB` attaches
the bet to that prediction. -/
theorem saveValueBet_spec_witness :
    (handleSaveValueBet betAB1
      { savedPredictions := [predAB], valueBets := [] }).savedPredictions[0]? =
      some { predAB with valueBets := some [betAB1] } := by
  have h := (saveValueBet_spec
    { savedPredictions := [predAB], valueBets := [] } betAB1).2.1 0 predAB rfl
  rw [h]
  decide

/-! ## Claim C6: update coherence across the two stores -/

theorem reattachSingle_coherent (b : ValueBet) (p : MatchPrediction) :
    ∀ e ∈ (reattachSingle b p).valueBets.getD [],
      betKeyMatches e b = true → e = b := by
  intro e he hk
  unfold reattachSingle at he
  cases hvb : p.valueBets with
  | none => simp [hvb] at he
  | some vbs =>
    rw [hvb] at he
    dsimp only at he
    by_cases hany : vbs.any (fun bet => betKeyMatches bet b) = true
    · simp only [if_pos hany, Option.getD_some] at he
      rcases List.mem_map.mp he with ⟨e0, he0, heq⟩
      by_cases h0 : betKeyMatches e0 b = true
      · rw [← heq, if_pos h0]
      · rw [← heq, if_neg h0] at hk
        exact absurd hk h0
    · rw [if_neg hany] at he
      rw [hvb] at he
      simp only [Option.getD_some] at he
      rw [List.any_eq_true] at hany
      exact absurd ⟨e, he, hk⟩ hany

/-- Claim C6: if some bet with `b`'s key `(matchId, pattern.type)` exists in
the Value-Bet Store, then after `handleUpdateValueBet b` a bet under that key
still exists and every bet under that key — top-level or embedded in any
prediction's `valueBets` — equals `b`. -/
theorem updateValueBet_coherence (s : StoreState) (b : ValueBet)
    (hex : ∃ e ∈ s.valueBets, betKeyMatches e b = true) :
    (∃ e ∈ (handleUpdateValueBet b s).valueBets, betKeyMatches e b = true) ∧
    (∀ e ∈ (handleUpdateValueBet b s).valueBets,
      betKeyMatches e b = true → e = b) ∧
    (∀ p ∈ (handleUpdateValueBet b s).savedPredictions,
      ∀ e ∈ p.valueBets.getD [], betKeyMatches e b = true → e = b) := by
  rw [handleUpdateValueBet_eq]
  refine ⟨?_, ?_, ?_⟩
  · rcases hex with ⟨e, he, hk⟩
    refine ⟨b, List.mem_map.mpr ⟨e, he, ?_⟩, betKeyMatches_refl b⟩
    rw [if_pos hk]
  · intro e he hk
    rcases List.mem_map.mp he with ⟨e0, he0, heq⟩
    by_cases h0 : betKeyMatches e0 b = true
    · rw [← heq, if_pos h0]
    · rw [← heq, if_neg h0] at hk
      exact absurd hk h0
  · intro p hp
    rcases List.mem_map.mp hp with ⟨p0, hp0, hpeq⟩
    rw [← hpeq]
    exact reattachSingle_coherent b p0

/-- Witness for C6: updating the key of `betAB1` with `betAB2` leaves the
Value-Bet Store holding exactly the updated record. -/
theorem updateValueBet_coherence_witness :
    (handleUpdateValueBet betAB2
      { savedPredictions := [], valueBets := [betAB1] }).valueBets = [betAB2] := by
  have h := (updateValueBet_coherence
    { savedPredictions := [], valueBets := [betAB1] } betAB2
    ⟨betAB1, by decide, by decide⟩).2.1 betAB2 (by decide) (betKeyMatches_refl betAB2)
  decide

/-! ## Claim C3: what the top-level update actually replaces -/

/-- Counterexample to C3 as stated: with two top-level bets sharing the key,
`handleUpdateValueBet` replaces *both*, not only the first — the later bet
`betAB2` does not remain unchanged. -/
theorem updateValueBet_first_only_cex :
    betKeyMatches betAB2 betAB3 = true ∧
    (handleUpdateValueBet betAB3
      { savedPredictions := [], valueBets := [betAB1, betAB2] }).valueBets =
      [betAB3, betAB3] ∧
    betAB3 ≠ betAB2 := by
  decide

theorem reattachSingle_eq_of_no_match (b : ValueBet) (p : MatchPrediction) :
    reattachSingle b p = p ∨
      ∃ vbs, p.valueBets = some vbs ∧
        reattachSingle b p =
          { p with valueBets := some (vbs.map (fun e =>
              if betKeyMatches e b then b else e)) } := by
  unfold reattachSingle
  cases hvb : p.valueBets with
  | none => exact Or.inl rfl
  | some vbs =>
    dsimp only
    by_cases hany : vbs.any (fun bet => betKeyMatches bet b) = true
    · refine Or.inr ⟨vbs, rfl, ?_⟩
      rw [if_pos hany]
    · exact Or.inl (by rw [if_neg hany])

/-- Claim C3 (amended): `handleUpdateValueBet b` replaces *every* top-level
bet whose `(matchId, pattern.type)` equals `b`'s key (not only the first);
if no bet with that key exists the top-level store is left entirely
unchanged (no insertion); and in either case the reattach traversal of the
Prediction Store still runs, mapping `reattachSingle b` over every stored
prediction. -/
theorem updateValueBet_top_level_spec (s : StoreState) (b : ValueBet) :
    (handleUpdateValueBet b s).valueBets.length = s.valueBets.length ∧
    (∀ i : Nat, (handleUpdateValueBet b s).valueBets[i]? =
      (s.valueBets[i]?).map (fun e => if betKeyMatches e b then b else e)) ∧
    ((∀ e ∈ s.valueBets, betKeyMatches e b = false) →
      (handleUpdateValueBet b s).valueBets = s.valueBets) ∧
    (handleUpdateValueBet b s).savedPredictions =
      s.savedPredictions.map (reattachSingle b) := by
  refine ⟨?_, ?_, ?_, ?_⟩
  · rw [handleUpdateValueBet_eq]
    simp
  · intro i
    rw [handleUpdateValueBet_eq]
    simp
  · intro h
    rw [handleUpdateValueBet_eq]
    simp only
    rw [List.map_congr_left (fun e he => by rw [if_neg (by simp [h e he])])]
    exact List.map_id _
  · rw [handleUpdateValueBet_eq]

/-- Witness for C3 (amended): an update whose key matches no stored bet
leaves the Value-Bet Store unchanged. -/
theorem updateValueBet_top_level_spec_witness :
    (handleUpdateValueBet betOther
      { savedPredictions := [], valueBets := [betAB1] }).valueBets = [betAB1] :=
  (updateValueBet_top_level_spec
    { savedPredictions := [], valueBets := [betAB1] } betOther).2.2.1 (by decide)

/-! ## Claim C1: propagation completeness across interleavings -/

/-- Counterexample to C1 as stated: saving a bet before the prediction it
resolves to leaves the bet absent from that prediction's `valueBets` — the
bet is in the Value-Bet Store, resolves to the stored prediction, yet occurs
zero times (not exactly once) under its key in the embedded sequence.
Propagation is triggered only by bet events, never by prediction saves. -/
theorem propagation_order_cex :
    runEvents [StoreEvent.saveBet betAB1, StoreEvent.savePred predAB] =
      { savedPredictions := [predAB], valueBets := [betAB1] } ∧
    resolvesMatch predAB betAB1.matchId = true ∧
    (predAB.valueBets.getD []).countP (fun e => betKeyMatches e betAB1) = 0 := by
  decide

theorem countP_betKey_eq_one {bs : List ValueBet} {b : ValueBet}
    (hmem : b ∈ bs)
    (hpw : bs.Pairwise (fun x y => betKeyMatches x y = false)) :
    bs.countP (fun e => betKeyMatches e b) = 1 := by
  induction bs with
  | nil => cases hmem
  | cons x rest ih =>
    rcases List.pairwise_cons.mp hpw with ⟨hx, hrest⟩
    rcases List.mem_cons.mp hmem with rfl | hmem'
    · rw [List.countP_cons_of_pos (fun e : ValueBet => betKeyMatches e b) _
        (betKeyMatches_refl b)]
      have h0 : rest.countP (fun e => betKeyMatches e b) = 0 := by
        rw [List.countP_eq_zero]
        intro e he hek
        have hbe : betKeyMatches b e = false := hx e he
        rw [betKeyMatches_symm e b, hbe] at hek
        cases hek
      omega
    · have hxb : betKeyMatches x b = false := hx b hmem'
      rw [List.countP_cons_of_neg (fun e : ValueBet => betKeyMatches e b) _
        (by simp [hxb])]
      exact ih hmem' hrest

/-- Claim C1 (amended): for sequences in which every `save(prediction)`
precedes every `saveValueBet(bet)`, each saved prediction carries no embedded
`valueBets`, and the saved bets have pairwise distinct
`(matchId, pattern.type)` keys, starting from empty stores: after the
sequence completes, every bet in the Value-Bet Store whose identity resolves
to a prediction in the Prediction Store appears exactly once per key in that
prediction's embedded `valueBets` sequence. -/
theorem propagation_completeness_ordered (ps : List MatchPrediction)
    (bs : List ValueBet)
    (hnone : ∀ p ∈ ps, p.valueBets = none)
    (hkeys : bs.Pairwise (fun x y => betKeyMatches x y = false)) :
    ∀ b ∈ (runEvents
        (ps.map StoreEvent.savePred ++ bs.map StoreEvent.saveBet)).valueBets,
    ∀ p ∈ (runEvents
        (ps.map StoreEvent.savePred ++ bs.map StoreEvent.saveBet)).savedPredictions,
      resolvesMatch p b.matchId = true →
      (p.valueBets.getD []).countP (fun e => betKeyMatches e b) = 1 := by
  unfold runEvents
  rw [List.foldl_append]
  have hvb1 : ((ps.map StoreEvent.savePred).foldl stepEvent emptyState).valueBets
      = [] := foldl_savePred_valueBets ps emptyState
  have hmem1 : ∀ q ∈ ((ps.map StoreEvent.savePred).foldl stepEvent
      emptyState).savedPredictions, q.valueBets = none := by
    intro q hq
    rcases foldl_savePred_mem ps emptyState hq with h | h
    · cases h
    · exact hnone q h
  rw [foldl_saveBet]
  intro b hb p hp hres
  simp only [hvb1, List.nil_append] at hb
  simp only at hp
  rcases List.mem_map.mp hp with ⟨p0, hp0, rfl⟩
  rw [resolvesMatch_attachAll] at hres
  rw [attachAll_valueBets, hmem1 p0 hp0]
  simp only [Option.getD_none, List.nil_append]
  have hmemf : b ∈ bs.filter (fun x => resolvesMatch p0 x.matchId) :=
    List.mem_filter.mpr ⟨hb, hres⟩
  have hle : (bs.filter (fun x => resolvesMatch p0 x.matchId)).countP
      (fun e => betKeyMatches e b) ≤ bs.countP (fun e => betKeyMatches e b) :=
    (List.filter_sublist bs).countP_le _
  have hbs : bs.countP (fun e => betKeyMatches e b) = 1 :=
    countP_betKey_eq_one hb hkeys
  have hpos : 0 < (bs.filter (fun x => resolvesMatch p0 x.matchId)).countP
      (fun e => betKeyMatches e b) :=
    List.countP_pos_iff.mpr ⟨b, hmemf, betKeyMatches_refl b⟩
  omega

/-- Witness for C1 (amended): saving `predAB` and then `betAB1` yields a
store where the attached copy of the bet occurs exactly once under its key. -/
theorem propagation_completeness_ordered_witness :
    ({ predAB with valueBets := some [betAB1] }.valueBets.getD []).countP
      (fun e => betKeyMatches e betAB1) = 1 := by
  have h := propagation_completeness_ordered [predAB] [betAB1]
    (by intro p hp; rw [List.mem_singleton] at hp; rw [hp]; rfl)
    (List.pairwise_singleton _ betAB1)
    betAB1 (by decide) { predAB with valueBets := some [betAB1] } (by decide)
    (by decide)
  exact h

end PredictionsView
